import Mathlib

/-!
Verification development for the swagger-aggregator repository
(`swagger_aggregator/swagger_aggregator.py`).

The Python source is shallowly embedded: Python values flowing through the
aggregator are modelled by `PyVal` (dicts become insertion-ordered
association lists, as in Python 3.7+), Python floats used by the backoff
arithmetic become exact rationals, exceptions become `Except`/explicit
outcome types, and the ambient network is an explicit oracle function.
-/

namespace SwaggerAggregator

/-- Model of the Python values the aggregator manipulates (JSON-like data
plus the scalars that occur in the source).  A Python `dict` is modelled as
an insertion-ordered association list, a Python `list` as a `List`. -/
inductive PyVal : Type where
  | str (s : String)
  | num (n : Int)
  | bool (b : Bool)
  | null
  | list (xs : List PyVal)
  | dict (items : List (String × PyVal))

/-- Python `d[k] = v` on a dict: overwrite the value in place when the key
is present (first occurrence), append at the end otherwise. -/
def assocSet {α : Type} : List (String × α) → String → α → List (String × α)
  | [], k, v => [(k, v)]
  | (k', v') :: rest, k, v =>
    if k' = k then (k, v) :: rest else (k', v') :: assocSet rest k v

/-- Python `d.get(k)` / `k in d` support: value of the first matching key. -/
def assocLookup {α : Type} : List (String × α) → String → Option α
  | [], _ => none
  | (k', v') :: rest, k => if k' = k then some v' else assocLookup rest k

/-- Python `del d[k]` when `k` is known to be present: drop the first
matching entry (no-op when absent; the source always guards the delete). -/
def assocErase {α : Type} : List (String × α) → String → List (String × α)
  | [], _ => []
  | (k', v') :: rest, k =>
    if k' = k then rest else (k', v') :: assocErase rest k

/-- Keys of an association list. -/
def assocKeys {α : Type} (l : List (String × α)) : List String :=
  l.map Prod.fst

/-- Python `str.replace(pat, rep)` on character lists, with an explicit
fuel argument so that the definition is structural (hence computable by the
kernel): leftmost, non-overlapping replacement of every occurrence of a
nonempty `pat`.  The fuel only needs to cover the length of the scanned
list; `replaceAll` below instantiates it with exactly that. -/
def replaceAllF (pat rep : List Char) : Nat → List Char → List Char
  | 0, l => l
  | _ + 1, [] => []
  | fuel + 1, c :: rest =>
    if pat ≠ [] ∧ pat.isPrefixOf (c :: rest) then
      rep ++ replaceAllF pat rep fuel (rest.drop (pat.length - 1))
    else
      c :: replaceAllF pat rep fuel rest

/-- Python `str.replace` for a nonempty pattern: scan fuel is the input
length, which always suffices (each step consumes at least one character). -/
def replaceAll (pat rep l : List Char) : List Char :=
  replaceAllF pat rep l.length l

/-- Python `str.replace` lifted to `String`, including the empty-pattern
boundary-insertion behaviour. -/
def strReplace (s pat rep : String) : String :=
  if pat.toList = [] then
    String.mk (rep.toList ++ (s.toList.map (fun c => c :: rep.toList)).flatten)
  else
    String.mk (replaceAll pat.toList rep.toList s.toList)

/-- Python `str.startswith`. -/
def strStartsWith (s p : String) : Bool :=
  p.toList.isPrefixOf s.toList

/-- Python `str.lower()` (the configured method names are ASCII, where
Python's lowering coincides with per-character ASCII lowering). -/
def pyLower (s : String) : String :=
  String.mk (s.toList.map Char.toLower)

/-- Recursion bound used as fuel by the structurally recursive models of
the Python functions that recurse over a `PyVal`: CPython aborts recursion
deeper than its recursion limit (1000 by default), so data nested beyond
this depth cannot be processed by the source either. -/
def pyRecursionLimit : Nat := 1000

/-- Substitution of the configured placeholder bindings into a string
(`parse_value`, lines 113-129): each binding key is substring-replaced by
its value, in the insertion order of `args_dict`. -/
def parseStr (args : List (String × String)) (s : String) : String :=
  args.foldl (fun acc kv => strReplace acc kv.1 kv.2) s

/-- The source `parse_value`: strings undergo placeholder substitution,
every non-string value is returned unchanged (the `isinstance` test at
line 126). -/
def parse_value (args : List (String × String)) : PyVal → PyVal
  | .str s => .str (parseStr args s)
  | v => v

example : parseStr [("identifications_url", "trax"), ("ingestion_url", "air")]
    "totoidentifications_url" = "tototrax" := by rfl

example : parseStr [("identifications_url", "trax"), ("ingestion_url", "air")]
    "identifications_urlingestion_url" = "traxair" := by rfl

example : parseStr [("identifications_url", "trax"), ("ingestion_url", "air")]
    "toto" = "toto" := by rfl

/-! ## The retry wrapper (`retry_http`, lines 25-70)

Python exceptions raised by the wrapped call are modelled explicitly: the
decorator catches exactly `requests.exceptions.ConnectionError`; every
other exception escapes the `except` clause.  The `id` payload lets
distinct exception objects be told apart. -/

/-- Exception kinds relevant to the source: `conn` is
`requests.exceptions.ConnectionError` (the only kind `retry_http`
catches), `jsonDecode` is `simplejson.scanner.JSONDecodeError`, `other`
is any other exception. -/
inductive PyErr : Type where
  | conn (id : Nat)
  | jsonDecode (id : Nat)
  | other (id : Nat)
deriving DecidableEq

/-- Observable outcome of one run of the wrapped function.  `slept` is the
total time actually spent in `time.sleep` during the run (the source adds
`next_retry_sleep` to `total_sleep_time` and then sleeps that exact
amount, so `total_sleep_time` equals the time really slept).
`raised` is the explicit `raise last_exception` after the loop (line 65);
`propagated` is an uncaught exception escaping the `call` at line 48;
`raisedNone` models the `raise None` that would occur if the loop were
exited with no recorded exception (unreachable from the initial state). -/
inductive RetryOutcome (α : Type) : Type where
  | ok (a : α) (slept : ℚ)
  | raised (e : PyErr) (slept : ℚ)
  | propagated (e : PyErr) (slept : ℚ)
  | raisedNone (slept : ℚ)
deriving DecidableEq

/-- Constant `multiplier = 1.5` (line 38). -/
def multiplier : ℚ := 3 / 2

/-- Constant `retry_interval = 0.5` (line 39). -/
def retryInterval : ℚ := 1 / 2

/-- Constant `randomization_factor = 0.5` (line 40). -/
def randomizationFactor : ℚ := 1 / 2

/-- Constant `max_sleep_time = 10` (line 43). -/
def maxSleepTime : ℚ := 10

/-- Backoff sleep computed for the failure at attempt `nb` (line 52):
`multiplier ** request_nb * (retry_interval * (randint(0, 1000)/1000 + 1 -
randomization_factor))`, with `j` the jitter draw `randint(0, 1000)`. -/
def nextSleep (nb : Nat) (j : Nat) : ℚ :=
  multiplier ^ nb * (retryInterval * ((j : ℚ) / 1000 + 1 - randomizationFactor))

/-- The `while total_sleep_time < max_sleep_time` loop of `_retry_http`
(lines 46-65), as a fuel-indexed step function.  `action n` is the outcome
of the `n`-th invocation of the wrapped call and `jitter n` the `n`-th
jitter draw; `nb` is `request_nb`, `total` is `total_sleep_time`, `last`
is `last_exception`.  `none` means the fuel ran out (never happens for
the fuel used by `retry_http`, see `retryLoop_fuel_sufficient`). -/
def retryLoop {α : Type} (action : Nat → Except PyErr α) (jitter : Nat → Nat) :
    Nat → Nat → ℚ → Option PyErr → Option (RetryOutcome α)
  | 0, _, _, _ => none
  | fuel + 1, nb, total, last =>
    if total < maxSleepTime then
      match action nb with
      | .ok a => some (.ok a total)
      | .error (.conn c) =>
        retryLoop action jitter fuel (nb + 1)
          (total + nextSleep nb (jitter nb)) (some (.conn c))
      | .error e => some (.propagated e total)
    else
      match last with
      | some e => some (.raised e total)
      | none => some (.raisedNone total)

/-- The wrapped function produced by `retry_http`: run the loop from
`request_nb = 0`, `total_sleep_time = 0`, `last_exception = None`.  Fuel
41 always suffices because every backoff sleep is at least 1/4 second
(`retry_http_ne_none`). -/
def retry_http {α : Type} (action : Nat → Except PyErr α) (jitter : Nat → Nat) :
    Option (RetryOutcome α) :=
  retryLoop action jitter 41 0 0 none

/-- Total sleep accumulated by the loop after `n` connection failures. -/
def sleptBefore (jitter : Nat → Nat) : Nat → ℚ
  | 0 => 0
  | n + 1 => sleptBefore jitter n + nextSleep n (jitter n)

/-! ## Fetching upstream specs (`get_swagger_from_url` lines 131-137,
`get_aggregate_swagger` lines 139-159)

The network is an oracle `http : Nat → String → Except PyErr PyVal`
giving the outcome (`requests.get(url).json()`) of the `n`-th GET of a
given url.  The source performs exactly one `requests.get` per call of
`get_swagger_from_url` — it consults attempt `0` and is not decorated
with `retry_http`. -/

/-- Model of `get_swagger_from_url`: one single GET of
`{parse_value(api_url)}/swagger.json` (line 137); no retry wrapper. -/
def get_swagger_from_url (http : Nat → String → Except PyErr PyVal)
    (args : List (String × String)) (apiUrl : String) : Except PyErr PyVal :=
  http 0 (parseStr args apiUrl ++ "/swagger.json")

/-- Modelled from the spec's wording for claim C3 only (spec §7: the fetch
is "retried by RetryingCaller up to the 10-second cumulative cap"): the
same GET wrapped in `retry_http`, successive attempts consulting
successive oracle indices.  This definition follows the spec's words, not
the source, and exists to be compared with `get_swagger_from_url`. -/
def get_swagger_from_url_retried (http : Nat → String → Except PyErr PyVal)
    (args : List (String × String)) (apiUrl : String) (jitter : Nat → Nat) :
    Option (RetryOutcome PyVal) :=
  retry_http (fun n => http n (parseStr args apiUrl ++ "/swagger.json")) jitter

/-- Mutable aggregation state: `swagger_apis` (name → (spec, resolved
url)) and the `errors` url list. -/
structure AggState : Type where
  apis : List (String × (PyVal × String))
  errors : List String

/-- One iteration of the `get_aggregate_swagger` loop (lines 146-158) for
a config entry `(api_name, api_url)`: skip names already fetched; on a
successful fetch store the spec and parsed url and remove the url from
`errors` (`list.remove`; the `ValueError` when absent is caught at line
157); on `ConnectionError` or `JSONDecodeError` append the raw url to
`errors` when not already present. -/
def processApi (http : Nat → String → Except PyErr PyVal)
    (args : List (String × String)) (st : AggState)
    (entry : String × String) : AggState :=
  if (st.apis.map Prod.fst).contains entry.1 then st
  else
    match get_swagger_from_url http args entry.2 with
    | .ok spec =>
      { apis := st.apis ++ [(entry.1, (spec, parseStr args entry.2))],
        errors := st.errors.erase entry.2 }
    | .error (.conn _) =>
      { st with errors :=
          if st.errors.contains entry.2 then st.errors else st.errors ++ [entry.2] }
    | .error (.jsonDecode _) =>
      { st with errors :=
          if st.errors.contains entry.2 then st.errors else st.errors ++ [entry.2] }
    | .error (.other _) => st
  -- an exception other than ConnectionError/JSONDecodeError would escape
  -- the `except` clauses; the model keeps the state unchanged there, a
  -- case no claim depends on.

/-- Model of `get_aggregate_swagger`: fold the loop body over the `apis`
section of the config (insertion order). -/
def get_aggregate_swagger (http : Nat → String → Except PyErr PyVal)
    (args : List (String × String)) (apis : List (String × String))
    (st : AggState) : AggState :=
  apis.foldl (processApi http args) st

/-! ## Merging (`merge_aggregates`, lines 184-206) -/

/-- The aggregate swagger being built (the parts `merge_aggregates`
touches: `definitions` and `paths`). -/
structure Swag : Type where
  definitions : List (String × PyVal)
  paths : List (String × PyVal)

/-- The reference-rewrite pattern `#/definitions/`. -/
def defsRef : String := "#/definitions/"

/-- Fueled structural recursion implementing line 196, the blind
serialize / substring-replace / re-parse of the whole spec:
`json.loads(json.dumps(spec).replace('#/definitions/',
'#/definitions/{api}'))`.  On the serialized JSON text the pattern
`#/definitions/` (which contains no quote or escape-prone character) can
occur only inside string literals — both dict keys and string values — so
the round trip equals replacing the substring inside every string of the
structure.  Fuel bounds the nesting depth; `renameRefs` instantiates it
with the Python recursion limit, past which CPython itself raises
`RecursionError` (a value nested deeper than the fuel is returned
unchanged here, the one place this model and the source differ; no claim
reaches that depth). -/
def renameRefsF (api : String) : Nat → PyVal → PyVal
  | 0, v => v
  | fuel + 1, v =>
    match v with
    | .str s => .str (strReplace s defsRef (defsRef ++ api))
    | .dict items =>
      .dict (items.map fun kv =>
        (strReplace kv.1 defsRef (defsRef ++ api), renameRefsF api fuel kv.2))
    | .list xs => .list (xs.map (renameRefsF api fuel))
    | w => w

/-- The definition-reference rewrite of line 196. -/
def renameRefs (api : String) (v : PyVal) : PyVal :=
  renameRefsF api pyRecursionLimit v

/-- The definition-storing loop of lines 199-203: a definition whose name
does not start with the upstream name is stored under
`{api}{definition_name}`, otherwise under its own name. -/
def mergeDefinitions (api : String) (defs : List (String × PyVal))
    (target : List (String × PyVal)) : List (String × PyVal) :=
  defs.foldl
    (fun acc kv =>
      if strStartsWith kv.1 api then assocSet acc kv.1 kv.2
      else assocSet acc (api ++ kv.1) kv.2)
    target

/-- Python `dict.update`: assign every key of `src` into `target` in
order. -/
def dictUpdate (target src : List (String × PyVal)) : List (String × PyVal) :=
  src.foldl (fun acc kv => assocSet acc kv.1 kv.2) target

/-- Model of `merge_aggregates`: for each upstream (in registry order)
rewrite its `#/definitions/` references (line 196), store its definitions
(lines 198-203), and `update` the aggregate's paths with its paths (lines
205-206).  `apis` carries each upstream's spec; entries whose
`definitions`/`paths` are absent are skipped by the membership tests, and
a non-dict value there is left alone (the source would fail on it; no
claim depends on that case). -/
def merge_aggregates (swagger : Swag) (apis : List (String × PyVal)) : Swag :=
  apis.foldl
    (fun sw entry =>
      let spec := renameRefs entry.1 entry.2
      let sw1 :=
        match spec with
        | .dict specItems =>
          match assocLookup specItems "definitions" with
          | some (.dict defs) =>
            { sw with definitions := mergeDefinitions entry.1 defs sw.definitions }
          | _ => sw
        | _ => sw
      match spec with
      | .dict specItems =>
        match assocLookup specItems "paths" with
        | some (.dict ps) => { sw1 with paths := dictUpdate sw1.paths ps }
        | _ => sw1
      | _ => sw1)
    swagger

/-! ## Path exclusion (`exclude_paths`, lines 161-182) -/

/-- Python `str.split(sep)` for a single-character separator: split on
every occurrence, keeping empty pieces. -/
def splitChar (sep : Char) : List Char → List (List Char)
  | [] => [[]]
  | c :: rest =>
    match splitChar sep rest with
    | [] => [[]]
    | h :: t => if c = sep then [] :: h :: t else (c :: h) :: t

/-- Python `p.split(' ')`. -/
def pySplit (s : String) : List String :=
  (splitChar ' ' s.toList).map String.mk

/-- Removal of the excluded methods from one path's action dict (the
inner loop, lines 179-181).  A non-dict path spec is left unchanged (the
source would fail on `.items()` there; no claim depends on it). -/
def delMethods (methods : List String) : PyVal → PyVal
  | .dict actions => .dict (actions.filter fun av => ¬ methods.contains av.1)
  | v => v

/-- Model of `exclude_paths`: build `path_exclude` by the dict
comprehension of line 173 (`{p.split(' ')[1]: [p.split(' ')[0].lower()]}`,
later rules overwriting earlier ones for the same path), then delete the
excluded actions from a deep copy of the swagger.  Indexing a rule with
no space raises in Python; the model defaults those pieces to `""`, a
case outside every claim. -/
def exclude_paths (rules : List String) (swagger : Swag) : Swag :=
  let px : List (String × List String) :=
    rules.foldl
      (fun acc p =>
        assocSet acc ((pySplit p).getD 1 "") [pyLower ((pySplit p).getD 0 "")])
      []
  { swagger with
    paths := swagger.paths.map fun kv =>
      match assocLookup px kv.1 with
      | some methods => (kv.1, delMethods methods kv.2)
      | none => kv }

example :
    exclude_paths ["POST /identifications/\x7bid\x7d/history/"]
      { definitions := [],
        paths := [("/identifications/\x7bid\x7d/history/",
                    .dict [("get", .dict []), ("post", .dict [])]),
                  ("path", .dict [("get", .dict []), ("post", .dict [])])] } =
      { definitions := [],
        paths := [("/identifications/\x7bid\x7d/history/", .dict [("get", .dict [])]),
                  ("path", .dict [("get", .dict []), ("post", .dict [])])] } := by rfl

/-! ## Response redaction (`filter_definition`, lines 259-288) -/

/-- Failure kinds of the value-level Python operations: `keyError` is a
`KeyError` from an unguarded `del d[k]` / `d[k]`, `typeError` a
`TypeError` from applying a dict/list operation to the wrong shape,
`recursionError` CPython's `RecursionError`. -/
inductive PyFail : Type where
  | keyError
  | typeError
  | recursionError
deriving DecidableEq

/-- Python `del d[k]`: `none` when the key is absent (a `KeyError`). -/
def pyDel (k : String) : List (String × PyVal) → Option (List (String × PyVal))
  | [] => none
  | kv :: rest => if kv.1 = k then some rest else (pyDel k rest).map (kv :: ·)

/-- The `for key in keys_to_remove: del doc[key]` loop of lines 275-276:
delete the listed keys one after the other; the first absent key raises
`KeyError`. -/
def pyDelAll : List String → List (String × PyVal) → Except PyFail (List (String × PyVal))
  | [], items => .ok items
  | k :: ks, items =>
    match pyDel k items with
    | some items' => pyDelAll ks items'
    | none => .error .keyError

/-- Apply `f` to every value of an association list, in order, stopping at
the first error (the `for k, v in doc.items(): doc[k] = ...` loop). -/
def mapPairsM (f : PyVal → Except PyFail PyVal) :
    List (String × PyVal) → Except PyFail (List (String × PyVal))
  | [] => .ok []
  | kv :: rest =>
    match f kv.2 with
    | .error e => .error e
    | .ok v' =>
      match mapPairsM f rest with
      | .error e => .error e
      | .ok rest' => .ok ((kv.1, v') :: rest')

/-- Apply `f` to every element of a list, in order, stopping at the first
error (the `for index, value in enumerate(doc)` loop). -/
def mapListM (f : PyVal → Except PyFail PyVal) :
    List PyVal → Except PyFail (List PyVal)
  | [] => .ok []
  | x :: xs =>
    match f x with
    | .error e => .error e
    | .ok x' =>
      match mapListM f xs with
      | .error e => .error e
      | .ok xs' => .ok (x' :: xs')

/-- Fueled model of `filter_definition`.  `resolve` is the injected
`swagger_parser.get_dict_definition` capability (line 269): the schema
name it resolves the dict to, `none` when it cannot determine one (the
subsequent `.get(doc_definition, [])` then yields no keys to remove).
`keysFor` is the lookup `self.yaml_file.get('exclude_fields', \x7b\x7d).get(doc_definition, [])`
of lines 269-272.  For a dict: remove each configured key with an unguarded `del` (lines
275-276), then redact the remaining values in order; for a list: redact
each element in place; anything else is returned unchanged.  Fuel bounds
the recursion depth as CPython's recursion limit does. -/
def keysFor (resolve : PyVal → Option String)
    (excl : List (String × List String))
    (items : List (String × PyVal)) : List String :=
  ((resolve (.dict items)).bind (assocLookup excl)).getD []

def filterDefF (resolve : PyVal → Option String)
    (excl : List (String × List String)) : Nat → PyVal → Except PyFail PyVal
  | 0, _ => .error .recursionError
  | fuel + 1, v =>
    match v with
    | .dict items =>
      match pyDelAll (keysFor resolve excl items) items with
      | .error e => .error e
      | .ok items' =>
        match mapPairsM (filterDefF resolve excl fuel) items' with
        | .error e => .error e
        | .ok items'' => .ok (.dict items'')
    | .list xs =>
      match mapListM (filterDefF resolve excl fuel) xs with
      | .error e => .error e
      | .ok xs' => .ok (.list xs')
    | w => .ok w

/-- Model of `filter_definition` at the recursion limit. -/
def filter_definition (resolve : PyVal → Option String)
    (excl : List (String × List String)) (v : PyVal) : Except PyFail PyVal :=
  filterDefF resolve excl pyRecursionLimit v

/-! ## Merge-time field exclusion (`generate_swagger_json`, lines 246-253) -/

/-- Python `key in xs` for a list of values compared against a string
(`==` between a string and a non-string is `False`). -/
def pyListContainsStr (xs : List PyVal) (k : String) : Bool :=
  xs.any fun v =>
    match v with
    | .str s => s = k
    | _ => false

/-- Python `xs.remove(k)` on a list known to contain `k`: drop the first
element equal to it. -/
def removeFirstStr (k : String) : List PyVal → List PyVal
  | [] => []
  | v :: rest =>
    match v with
    | .str s => if s = k then rest else .str s :: removeFirstStr k rest
    | w => w :: removeFirstStr k rest

/-- The body of the innermost loop of lines 249-253 for one excluded
`key`: `definition_spec['required']` is subscripted unconditionally (a
`KeyError` when absent) and the removal from it is guarded by membership;
then `definition_spec['properties']` is subscripted (also unguarded) and
the `del` from it is guarded by membership.  A non-list `required` or a
non-dict `properties` would fail in Python too (`TypeError`). -/
def exclFieldKey (items : List (String × PyVal)) (key : String) :
    Except PyFail (List (String × PyVal)) :=
  match assocLookup items "required" with
  | none => .error .keyError
  | some (.list xs) =>
    let items1 :=
      if pyListContainsStr xs key then
        assocSet items "required" (.list (removeFirstStr key xs))
      else items
    match assocLookup items1 "properties" with
    | none => .error .keyError
    | some (.dict pits) =>
      .ok (if (pits.map Prod.fst).contains key then
             assocSet items1 "properties" (.dict (assocErase pits key))
           else items1)
    | some _ => .error .typeError
  | some _ => .error .typeError

/-- Fold of `exclFieldKey` over the keys listed for one definition. -/
def exclFieldKeys : List String → List (String × PyVal) →
    Except PyFail (List (String × PyVal))
  | [], items => .ok items
  | k :: ks, items =>
    match exclFieldKey items k with
    | .error e => .error e
    | .ok items' => exclFieldKeys ks items'

/-- The `exclude_fields` pass of `generate_swagger_json` (lines 246-253):
every definition whose name appears in the `exclude_fields` config has
each listed key removed from its `required` list and `properties` dict,
as `exclFieldKey` does; other definitions are untouched.  An exception
aborts the pass. -/
def remove_exclude_fields (excl : List (String × List String)) :
    List (String × PyVal) → Except PyFail (List (String × PyVal))
  | [] => .ok []
  | (name, dspec) :: rest =>
    match assocLookup excl name with
    | none =>
      match remove_exclude_fields excl rest with
      | .error e => .error e
      | .ok rest' => .ok ((name, dspec) :: rest')
    | some keys =>
      match dspec with
      | .dict items =>
        match exclFieldKeys keys items with
        | .error e => .error e
        | .ok items' =>
          match remove_exclude_fields excl rest with
          | .error e => .error e
          | .ok rest' => .ok ((name, .dict items') :: rest')
      | _ => .error .typeError

/-! ## Dispatch-time URL building (`generate_operation_id_function`,
lines 306-312) -/

/-- The character `{`. -/
def openBr : Char := '\x7b'

/-- The character `}`. -/
def closeBr : Char := '\x7d'

/-- Index of the last occurrence of `c`. -/
def lastIdxOf (c : Char) : List Char → Option Nat
  | [] => none
  | a :: rest =>
    match lastIdxOf c rest with
    | some j => some (j + 1)
    | none => if a = c then some 0 else none

/-- Fueled model of `re.findall('{(.+)}', url)`: scan left to right; at a
`{`, the greedy `.+` (which does not cross a newline) backtracks to the
last `}` of the remaining newline-free window, requiring a nonempty
group; on a match, emit the group and resume after its closing brace; on
failure, advance one character.  Fuel covers the input length. -/
def reFindallF : Nat → List Char → List (List Char)
  | 0, _ => []
  | _ + 1, [] => []
  | fuel + 1, c :: rest =>
    if c = openBr then
      let window := rest.takeWhile fun d => d ≠ '\n'
      match lastIdxOf closeBr window with
      | some j =>
        if 1 ≤ j then window.take j :: reFindallF fuel (rest.drop (j + 1))
        else reFindallF fuel rest
      | none => reFindallF fuel rest
    else reFindallF fuel rest

/-- `re.findall('{(.+)}', url)`, the pattern compiled at line 308. -/
def reFindallBraced (l : List Char) : List (List Char) :=
  reFindallF l.length l

/-- Dispatch-time URL building (lines 307-312): the target is
`{uri}{path}?{query_string}`, then for every group found by
`re.findall('{(.+)}', url)` and every keyword argument with exactly that
name, `url.replace('{' + k + '}', str(v))`. -/
def dispatch_url (uri path qs : String) (kwargs : List (String × String)) :
    String :=
  let url0 := uri ++ path ++ "?" ++ qs
  (reFindallBraced url0.toList).foldl
    (fun url pp =>
      kwargs.foldl
        (fun u kv =>
          if kv.1.toList = pp then
            strReplace u (String.mk (openBr :: (kv.1.toList ++ [closeBr]))) kv.2
          else u)
        url)
    url0

/-! ## Dispatch-time header forwarding (lines 316-326) -/

/-- Flask/werkzeug `request.headers.get(k, '')`: header lookup is
case-insensitive. -/
def ciGet (headers : List (String × String)) (k : String) : String :=
  ((headers.find? fun kv => pyLower kv.1 = pyLower k).map Prod.snd).getD ""

/-- The headers passed to the upstream call (lines 316-326): the inbound
headers are first filtered to those with a truthy (non-empty) value (line
316); when the inbound `Content-Type` starts with `multipart/form-data`
and `Content-Length` survived the filter, its value is re-assigned under
`X-Content-Length` and the original entry deleted (lines 322-324).
`truthyHeaders` is the comprehension of line 316. -/
def truthyHeaders (inbound : List (String × String)) :
    List (String × String) :=
  inbound.filter fun kv => kv.2 ≠ ""

def forward_headers (inbound : List (String × String)) :
    List (String × String) :=
  let headers := truthyHeaders inbound
  if ¬ strStartsWith (ciGet inbound "Content-Type") "multipart/form-data" then
    headers
  else
    if (headers.map Prod.fst).contains "Content-Length" then
      assocErase
        (assocSet headers "X-Content-Length"
          ((assocLookup headers "Content-Length").getD ""))
        "Content-Length"
    else headers

example :
    filter_definition
      (fun v =>
        match v with
        | .dict items => if (items.map Prod.fst).contains "sub" then some "schemaX" else some "schemaSub"
        | _ => none)
      [("schemaX", ["id"]), ("schemaSub", ["id"])]
      (.list [.dict [("id", .str "123"), ("test", .str "456"),
                     ("sub", .dict [("id", .str "789"), ("test", .str "147")])]]) =
      .ok (.list [.dict [("test", .str "456"),
                         ("sub", .dict [("test", .str "147")])]]) := by rfl

example :
    dispatch_url "http://u" "/pets/\x7bid\x7d" "a=b" [("id", "42")] =
      "http://u/pets/42?a=b" := by rfl

example :
    dispatch_url "http://u" "/a/\x7bx\x7d/b/\x7by\x7d" "q=1" [("x", "1"), ("y", "2")] =
      "http://u/a/\x7bx\x7d/b/\x7by\x7d?q=1" := by rfl

example :
    forward_headers [("Content-Type", "multipart/form-data; boundary=x"),
                     ("Content-Length", "10"), ("Host", "h")] =
      [("Content-Type", "multipart/form-data; boundary=x"), ("Host", "h"),
       ("X-Content-Length", "10")] := by rfl

example :
    forward_headers [("X-Empty", ""), ("A", "1")] = [("A", "1")] := by rfl


/-! ## Lemmas about the retry loop -/

/-- One unfolding step of the loop at positive fuel. -/
theorem retryLoop_succ {α : Type} (action : Nat → Except PyErr α)
    (jitter : Nat → Nat) (fuel nb : Nat) (total : ℚ) (last : Option PyErr) :
    retryLoop action jitter (fuel + 1) nb total last =
      if total < maxSleepTime then
        match action nb with
        | .ok a => some (.ok a total)
        | .error (.conn c) =>
          retryLoop action jitter fuel (nb + 1)
            (total + nextSleep nb (jitter nb)) (some (.conn c))
        | .error e => some (.propagated e total)
      else
        match last with
        | some e => some (.raised e total)
        | none => some (.raisedNone total) := rfl

/-- Every backoff sleep is at least a quarter of a second. -/
theorem nextSleep_ge (nb j : Nat) : (1 / 4 : ℚ) ≤ nextSleep nb j := by
  unfold nextSleep multiplier retryInterval randomizationFactor
  have hpow : (1 : ℚ) ≤ (3 / 2) ^ nb := one_le_pow₀ (by norm_num)
  have hj : (0 : ℚ) ≤ (j : ℚ) / 1000 := by positivity
  nlinarith

/-- The loop cannot run out of fuel when the remaining fuel covers the
remaining sleep budget at a quarter second per failure. -/
theorem retryLoop_fuel_sufficient {α : Type} (action : Nat → Except PyErr α)
    (jitter : Nat → Nat) :
    ∀ (fuel nb : Nat) (total : ℚ) (last : Option PyErr),
      maxSleepTime ≤ total + (fuel : ℚ) * (1 / 4) →
      retryLoop action jitter (fuel + 1) nb total last ≠ none := by
  intro fuel
  induction fuel with
  | zero =>
    intro nb total last h
    simp only [Nat.cast_zero, zero_mul, add_zero] at h
    rw [retryLoop_succ, if_neg (not_lt.mpr h)]
    cases last <;> simp
  | succ fuel ih =>
    intro nb total last h
    rw [retryLoop_succ]
    by_cases hc : total < maxSleepTime
    · rw [if_pos hc]
      cases ha : action nb with
      | ok a => simp
      | error e =>
        cases e with
        | conn c =>
          apply ih
          have hs := nextSleep_ge nb (jitter nb)
          push_cast at h ⊢
          nlinarith
        | jsonDecode c => simp
        | other c => simp
    · rw [if_neg hc]
      cases last <;> simp

/-- `retry_http` never exhausts its fuel. -/
theorem retry_http_ne_none {α : Type} (action : Nat → Except PyErr α)
    (jitter : Nat → Nat) : retry_http action jitter ≠ none := by
  have h := retryLoop_fuel_sufficient action jitter 40 0 0 none
  apply h
  norm_num [maxSleepTime]

/-- Soundness invariant of the retry loop: starting from a state in which
`total_sleep_time` is the sleep accumulated over `nb` connection failures
and `last_exception` records the most recent of them, a success outcome
carries a total sleep below the cap and the action's own value, a `raised`
outcome carries a total sleep at or above the cap and the most recent
connection error of an all-connection-error prefix of attempts, and a
`propagated` outcome is a non-connection error surfaced with no retry and
no additional sleep. -/
theorem retryLoop_sound {α : Type} (action : Nat → Except PyErr α)
    (jitter : Nat → Nat) :
    ∀ (fuel nb : Nat) (last : Option PyErr),
      (∀ i, i < nb → ∃ c, action i = .error (.conn c)) →
      (∀ e, last = some e → ∃ m, m + 1 = nb ∧ action m = .error e) →
      (last = none → nb = 0) →
      ((∀ a t,
          retryLoop action jitter fuel nb (sleptBefore jitter nb) last =
            some (.ok a t) →
          t < maxSleepTime ∧ ∃ n, action n = .ok a) ∧
       (∀ e t,
          retryLoop action jitter fuel nb (sleptBefore jitter nb) last =
            some (.raised e t) →
          maxSleepTime ≤ t ∧
            ∃ n, action n = .error e ∧
              ∀ i, i ≤ n → ∃ c, action i = .error (.conn c)) ∧
       (∀ e t,
          retryLoop action jitter fuel nb (sleptBefore jitter nb) last =
            some (.propagated e t) →
          (∀ c, e ≠ .conn c) ∧
            ∃ n, action n = .error e ∧ t = sleptBefore jitter n ∧
              t < maxSleepTime ∧
              ∀ i, i < n → ∃ c, action i = .error (.conn c))) := by
  intro fuel
  induction fuel with
  | zero =>
    intro nb last _ _ _
    refine ⟨?_, ?_, ?_⟩ <;> intro _ _ h <;> exact (Option.noConfusion h)
  | succ fuel ih =>
    intro nb last hconn hlast hnone
    rw [retryLoop_succ]
    by_cases hc : sleptBefore jitter nb < maxSleepTime
    · rw [if_pos hc]
      cases ha : action nb with
      | ok a =>
        refine ⟨?_, ?_, ?_⟩ <;> intro x t h <;>
          simp only [Option.some.injEq] at h
        · obtain ⟨rfl, rfl⟩ := (RetryOutcome.ok.injEq ..).mp h.symm
          exact ⟨hc, nb, ha⟩
        · exact absurd h (by simp)
        · exact absurd h (by simp)
      | error e =>
        cases e with
        | conn c =>
          have hstep : sleptBefore jitter nb + nextSleep nb (jitter nb) =
              sleptBefore jitter (nb + 1) := rfl
          rw [hstep]
          exact ih (nb + 1) (some (.conn c))
            (fun i hi => by
              rcases Nat.lt_succ_iff_lt_or_eq.mp hi with hi' | rfl
              · exact hconn i hi'
              · exact ⟨c, ha⟩)
            (fun e he => ⟨nb, rfl, by
              obtain rfl := (Option.some.injEq ..).mp he
              exact ha⟩)
            (fun h => Option.noConfusion h)
        | jsonDecode c =>
          refine ⟨?_, ?_, ?_⟩ <;> intro x t h <;>
            simp only [Option.some.injEq] at h
          · exact absurd h (by simp)
          · exact absurd h (by simp)
          · obtain ⟨rfl, rfl⟩ := (RetryOutcome.propagated.injEq ..).mp h.symm
            exact ⟨fun c => by simp, nb, ha, rfl, hc, hconn⟩
        | other c =>
          refine ⟨?_, ?_, ?_⟩ <;> intro x t h <;>
            simp only [Option.some.injEq] at h
          · exact absurd h (by simp)
          · exact absurd h (by simp)
          · obtain ⟨rfl, rfl⟩ := (RetryOutcome.propagated.injEq ..).mp h.symm
            exact ⟨fun c => by simp, nb, ha, rfl, hc, hconn⟩
    · rw [if_neg hc]
      cases last with
      | none =>
        have h0 : nb = 0 := hnone rfl
        subst h0
        exact absurd (by norm_num [sleptBefore, maxSleepTime]) hc
      | some e0 =>
        refine ⟨?_, ?_, ?_⟩ <;> intro x t h <;>
          simp only [Option.some.injEq] at h
        · exact absurd h (by simp)
        · obtain ⟨he, ht⟩ := (RetryOutcome.raised.injEq ..).mp h.symm
          subst ht
          obtain ⟨m, hm, hact⟩ := hlast e0 rfl
          rw [he]
          exact ⟨not_lt.mp hc, m, hact, fun i hi => hconn i (by omega)⟩
        · exact absurd h (by simp)


/-! ## Claims C1, C2, C3 -/

/-- C1, counterexample: with an action that always fails with a connection
error and all jitter draws at their minimum, the wrapper gives up having
slept a cumulative 6305/512 seconds — at least the 10-second cap, because
the final backoff sleep is performed before the cap is re-checked.  This
refutes "it never sleeps cumulatively 10 seconds or more before giving
up". -/
theorem C1_counterexample :
    retry_http (fun _ => (.error (.conn 0) : Except PyErr Nat)) (fun _ => 0) =
      some (.raised (.conn 0) (6305 / 512)) ∧
    maxSleepTime ≤ (6305 / 512 : ℚ) := by
  constructor
  · norm_num [retry_http, retryLoop, nextSleep, multiplier, retryInterval,
      randomizationFactor, maxSleepTime]
  · norm_num [maxSleepTime]

/-- C1 (amended): for every wrapped action and every sequence of jitter
draws, the wrapper tracks cumulative slept time and attempts the action
only while that total is below the 10-second cap, so a success returns the
action's own result with less than 10 seconds slept; when it gives up it
raises the most recent connection error of an all-connection-error run of
attempts — but only after performing the final backoff sleep, so the
cumulative sleep at give-up is at least 10 seconds, not below it. -/
theorem C1_amended_spec {α : Type} (action : Nat → Except PyErr α)
    (jitter : Nat → Nat) :
    retry_http action jitter ≠ none ∧
    (∀ a t, retry_http action jitter = some (.ok a t) →
      t < maxSleepTime ∧ ∃ n, action n = .ok a) ∧
    (∀ e t, retry_http action jitter = some (.raised e t) →
      maxSleepTime ≤ t ∧ ∃ n, action n = .error e ∧
        ∀ i, i ≤ n → ∃ c, action i = .error (.conn c)) := by
  have hs := retryLoop_sound action jitter 41 0 none
    (fun i hi => absurd hi (Nat.not_lt_zero i))
    (fun e he => Option.noConfusion he)
    (fun _ => rfl)
  exact ⟨retry_http_ne_none action jitter, hs.1, hs.2.1⟩

/-- C1, witness: an action that fails once with a connection error and
then succeeds is retried and returns its own result, below the cap. -/
theorem C1_witness :
    (1 / 4 : ℚ) < maxSleepTime ∧
    ∃ n, (fun n => if n = 0 then (.error (.conn 5) : Except PyErr Nat)
                   else .ok 7) n = .ok 7 :=
  (C1_amended_spec
      (fun n => if n = 0 then (.error (.conn 5) : Except PyErr Nat) else .ok 7)
      (fun _ => 0)).2.1 7 (1 / 4)
    (by norm_num [retry_http, retryLoop, nextSleep, multiplier, retryInterval,
          randomizationFactor, maxSleepTime])

/-- C2: the wrapper retries only on connection errors.  Any propagated
exception is a non-connection error raised by some attempt, every earlier
attempt having failed with a connection error, and the cumulative sleep at
propagation is exactly the backoff accumulated for those earlier attempts
— no retry and no backoff sleep happens for the propagated error itself;
in particular an action whose first attempt raises a non-connection error
propagates it immediately with zero sleep. -/
theorem C2_nontransient_propagates {α : Type} (action : Nat → Except PyErr α)
    (jitter : Nat → Nat) :
    (∀ e t, retry_http action jitter = some (.propagated e t) →
      (∀ c, e ≠ .conn c) ∧
        ∃ n, action n = .error e ∧ t = sleptBefore jitter n ∧
          t < maxSleepTime ∧
          ∀ i, i < n → ∃ c, action i = .error (.conn c)) ∧
    (∀ c, action 0 = .error (.other c) →
      retry_http action jitter = some (.propagated (.other c) 0)) := by
  constructor
  · exact (retryLoop_sound action jitter 41 0 none
      (fun i hi => absurd hi (Nat.not_lt_zero i))
      (fun e he => Option.noConfusion he)
      (fun _ => rfl)).2.2
  · intro c h0
    show retryLoop action jitter 41 0 0 none = _
    rw [retryLoop_succ, if_pos (by norm_num [maxSleepTime] : (0 : ℚ) < maxSleepTime), h0]

/-- C2, witness: a first-attempt non-connection error propagates at once
with zero cumulative sleep. -/
theorem C2_witness :
    retry_http (fun _ => (.error (.other 7) : Except PyErr Nat)) (fun _ => 0) =
      some (.propagated (.other 7) 0) :=
  (C2_nontransient_propagates
      (fun _ => (.error (.other 7) : Except PyErr Nat)) (fun _ => 0)).2 7 rfl

/-- C3, counterexample: `get_swagger_from_url` is not wrapped in
`retry_http`.  Against an endpoint whose first GET fails with a connection
error and whose later GETs succeed, the source's fetch surfaces the
error of its single attempt, while the fetch the spec describes (wrapped
in the retry caller) would have recovered and returned the document. -/
theorem C3_counterexample :
    get_swagger_from_url
        (fun n _ => if n = 0 then .error (.conn 0) else .ok (.num 42))
        [] "http://api" = .error (.conn 0) ∧
    get_swagger_from_url_retried
        (fun n _ => if n = 0 then .error (.conn 0) else .ok (.num 42))
        [] "http://api" (fun _ => 0) = some (.ok (.num 42) (1 / 4)) := by
  constructor
  · rfl
  · norm_num [get_swagger_from_url_retried, retry_http, retryLoop, nextSleep,
      multiplier, retryInterval, randomizationFactor, maxSleepTime]

/-- C3 (amended): a connection failure while fetching an upstream's
specification is not retried: `get_swagger_from_url` performs exactly one
GET of `{parsedBaseURL}/swagger.json` (attempt 0 of the oracle, no backoff
loop), and `get_aggregate_swagger`'s loop body catches the connection
error, records the upstream's raw URL in the error list (unless already
recorded) and leaves the upstream out of `swagger_apis` for this pass; a
successful fetch stores the spec and clears the URL from the error list. -/
theorem C3_amended_spec :
    (∀ http args url, get_swagger_from_url http args url =
        http 0 (parseStr args url ++ "/swagger.json")) ∧
    (∀ http args (st : AggState) name url c,
      (st.apis.map Prod.fst).contains name = false →
      http 0 (parseStr args url ++ "/swagger.json") = .error (.conn c) →
      processApi http args st (name, url) =
        { apis := st.apis,
          errors := if st.errors.contains url then st.errors
                    else st.errors ++ [url] }) ∧
    (∀ http args (st : AggState) name url spec,
      (st.apis.map Prod.fst).contains name = false →
      http 0 (parseStr args url ++ "/swagger.json") = .ok spec →
      processApi http args st (name, url) =
        { apis := st.apis ++ [(name, (spec, parseStr args url))],
          errors := st.errors.erase url }) := by
  refine ⟨fun _ _ _ => rfl, ?_, ?_⟩
  · intro http args st name url c hfresh hhttp
    simp only [processApi, get_swagger_from_url, hfresh, Bool.false_eq_true,
      if_false, hhttp]
  · intro http args st name url spec hfresh hhttp
    simp only [processApi, get_swagger_from_url, hfresh, Bool.false_eq_true,
      if_false, hhttp]

/-- C3, witness: a fresh upstream whose fetch hits a connection error ends
up recorded in the error list and absent from the fetched specs. -/
theorem C3_witness :
    processApi (fun _ _ => .error (.conn 9)) []
        { apis := [], errors := [] } ("petstore", "http://api") =
      { apis := [], errors := ["http://api"] } := by
  have h := C3_amended_spec.2.1 (fun _ _ => .error (.conn 9)) []
    { apis := [], errors := [] } "petstore" "http://api" 9 rfl rfl
  simpa using h


/-! ## Claims C4, C5 -/

/-- C4: `parse_value` substitutes every configured placeholder binding
into a string value as a blunt substring replacement (each binding applied
with `str.replace` in insertion order): with bindings
`identifications_url → trax` and `ingestion_url → air`,
`totoidentifications_url` becomes `tototrax` and
`identifications_urlingestion_url` becomes `traxair`; every non-string
value is returned unchanged. -/
theorem C4_parse_value_substring :
    (∀ args s, parse_value args (.str s) = .str (parseStr args s)) ∧
    parse_value [("identifications_url", "trax"), ("ingestion_url", "air")]
      (.str "totoidentifications_url") = .str "tototrax" ∧
    parse_value [("identifications_url", "trax"), ("ingestion_url", "air")]
      (.str "identifications_urlingestion_url") = .str "traxair" ∧
    (∀ args n, parse_value args (.num n) = .num n) ∧
    (∀ args b, parse_value args (.bool b) = .bool b) ∧
    (∀ args, parse_value args .null = .null) ∧
    (∀ args xs, parse_value args (.list xs) = .list xs) ∧
    (∀ args items, parse_value args (.dict items) = .dict items) :=
  ⟨fun _ _ => rfl, rfl, rfl, fun _ _ => rfl, fun _ _ => rfl, fun _ => rfl,
   fun _ _ => rfl, fun _ _ => rfl⟩

/-- C5: during the merge, a definition contributed by an upstream is
stored under `{upstreamName}{schemaName}` when its name does not already
start with the upstream's name and under its own name otherwise; in
particular two upstreams `upsA`, `upsB` each contributing a schema called
`Name` (which starts with neither upstream's name) yield the two distinct
merged definitions `upsAName` and `upsBName`. -/
theorem C5_merge_definitions_prefix :
    (∀ api name v target,
       mergeDefinitions api [(name, v)] target =
         assocSet target
           (if strStartsWith name api then name else api ++ name) v) ∧
    merge_aggregates { definitions := [], paths := [] }
      [("upsA", .dict [("definitions",
          .dict [("Name", .dict [("type", .str "object")])])]),
       ("upsB", .dict [("definitions",
          .dict [("Name", .dict [("type", .str "integer")])])])] =
      { definitions := [("upsAName", .dict [("type", .str "object")]),
                        ("upsBName", .dict [("type", .str "integer")])],
        paths := [] } ∧
    ("upsAName" : String) ≠ "upsBName" := by
  refine ⟨?_, by rfl, by decide⟩
  intro api name v target
  cases h : strStartsWith name api <;> simp [mergeDefinitions, h]


/-! ## Claim C6 -/

/-- Rebuilding a string from its characters is the identity. -/
theorem strMk_toList (s : String) : String.mk s.toList = s := rfl

/-- One unfolding step of `splitChar`. -/
theorem splitChar_cons (sep c : Char) (rest : List Char) :
    splitChar sep (c :: rest) =
      match splitChar sep rest with
      | [] => [[]]
      | h :: t => if c = sep then [] :: h :: t else (c :: h) :: t := rfl

/-- `splitChar` never returns an empty list of pieces. -/
theorem splitChar_ne_nil (sep : Char) : ∀ l : List Char, splitChar sep l ≠ []
  | [] => by simp [splitChar]
  | c :: rest => by
    rw [splitChar_cons]
    cases h : splitChar sep rest with
    | nil => simp
    | cons hd tl => by_cases hc : c = sep <;> simp [hc]

/-- Splitting a separator-free list yields that list as the only piece. -/
theorem splitChar_not_mem (sep : Char) :
    ∀ l : List Char, sep ∉ l → splitChar sep l = [l]
  | [], _ => rfl
  | c :: rest, h => by
    have hc : c ≠ sep := fun hh => h (hh ▸ List.mem_cons_self c rest)
    have hrest : sep ∉ rest := fun hh => h (List.mem_cons_of_mem c hh)
    rw [splitChar_cons, splitChar_not_mem sep rest hrest]
    simp [fun hh => hc hh]

/-- Splitting at the first separator occurrence peels off the prefix. -/
theorem splitChar_append (sep : Char) :
    ∀ a b : List Char, sep ∉ a →
      splitChar sep (a ++ sep :: b) = a :: splitChar sep b
  | [], b, _ => by
    show splitChar sep (sep :: b) = [] :: splitChar sep b
    rw [splitChar_cons]
    cases h : splitChar sep b with
    | nil => exact absurd h (splitChar_ne_nil sep b)
    | cons hd tl => simp
  | c :: a', b, h => by
    have hc : c ≠ sep := fun hh => h (hh ▸ List.mem_cons_self c a')
    have ha' : sep ∉ a' := fun hh => h (List.mem_cons_of_mem c hh)
    show splitChar sep (c :: (a' ++ sep :: b)) = _
    rw [splitChar_cons, splitChar_append sep a' b ha']
    simp [fun hh => hc hh]

/-- `p.split(' ')` on a well-formed `"METHOD /path"` rule gives the method
and the path. -/
theorem pySplit_two (method path : String)
    (hm : ' ' ∉ method.toList) (hp : ' ' ∉ path.toList) :
    pySplit (method ++ " " ++ path) = [method, path] := by
  unfold pySplit
  have hdata : (method ++ " " ++ path).toList =
      method.toList ++ ' ' :: path.toList := by
    show (method.data ++ " ".data ++ path.data) = _
    simp
  rw [hdata, splitChar_append ' ' _ _ hm, splitChar_not_mem ' ' _ hp]
  simp [strMk_toList]

/-- C6: for an exclusion rule `METHOD /path` (method and path free of
spaces), `exclude_paths` removes exactly the lower-cased method's entry
from the action dict of the named path, leaves every other method of that
path and every other path unchanged, and leaves the definitions
untouched. -/
theorem C6_exclude_paths (method path : String) (sw : Swag)
    (hm : ' ' ∉ method.toList) (hp : ' ' ∉ path.toList) :
    (∀ m (actions : List (String × PyVal)),
       delMethods [m] (.dict actions) =
         .dict (actions.filter fun av => av.1 ≠ m)) ∧
    (exclude_paths [method ++ " " ++ path] sw).definitions =
      sw.definitions ∧
    (exclude_paths [method ++ " " ++ path] sw).paths =
      sw.paths.map fun kv =>
        if kv.1 = path then (kv.1, delMethods [pyLower method] kv.2)
        else kv := by
  refine ⟨?_, rfl, ?_⟩
  · intro m actions
    show PyVal.dict (actions.filter fun av => ¬ [m].contains av.1) = _
    congr 1
    apply List.filter_congr
    intro av _
    simp
  · have hfun : ∀ kv : String × PyVal,
        (match assocLookup [(path, [pyLower method])] kv.1 with
         | some methods => (kv.1, delMethods methods kv.2)
         | none => kv) =
        (if kv.1 = path then (kv.1, delMethods [pyLower method] kv.2)
         else kv) := by
      intro kv
      by_cases h : path = kv.1
      · rw [show assocLookup [(path, [pyLower method])] kv.1 =
            some [pyLower method] by simp [assocLookup, h], if_pos h.symm]
      · rw [show assocLookup [(path, [pyLower method])] kv.1 = none by
            simp [assocLookup, h], if_neg (fun hh => h hh.symm)]
    have hrule : pySplit (method ++ " " ++ path) = [method, path] :=
      pySplit_two method path hm hp
    simp only [exclude_paths, List.foldl_cons, List.foldl_nil]
    rw [hrule]
    simp only [List.getD_cons_zero, List.getD_cons_succ, assocSet]
    exact List.map_congr_left (fun kv _ => hfun kv)

/-- C6, witness: the rule `POST /identifications/{id}/history/` applied to
a swagger where that path has both `get` and `post` keeps `get`, drops
`post`, and leaves the sibling path untouched. -/
theorem C6_witness :
    (exclude_paths ["POST /identifications/\x7bid\x7d/history/"]
      { definitions := [],
        paths := [("/identifications/\x7bid\x7d/history/",
                    .dict [("get", .dict []), ("post", .dict [])]),
                  ("path", .dict [("get", .dict []), ("post", .dict [])])] }).paths =
      [("/identifications/\x7bid\x7d/history/", .dict [("get", .dict [])]),
       ("path", .dict [("get", .dict []), ("post", .dict [])])] := by
  have h := (C6_exclude_paths "POST" "/identifications/\x7bid\x7d/history/"
      { definitions := [],
        paths := [("/identifications/\x7bid\x7d/history/",
                    .dict [("get", .dict []), ("post", .dict [])]),
                  ("path", .dict [("get", .dict []), ("post", .dict [])])] }
      (by decide) (by decide)).2.2
  exact h.trans (by rfl)


/-! ## Claim C7 -/

/-- Equation: no keys to delete leaves the dict untouched. -/
theorem pyDelAll_nil (items : List (String × PyVal)) :
    pyDelAll [] items = .ok items := rfl

/-- Equation: deleting a list of keys starts with its head. -/
theorem pyDelAll_cons (k : String) (ks : List String)
    (items : List (String × PyVal)) :
    pyDelAll (k :: ks) items =
      match pyDel k items with
      | some items' => pyDelAll ks items'
      | none => .error .keyError := rfl

/-- Equation: redacting a dict at positive fuel. -/
theorem filterDefF_dict (resolve : PyVal → Option String)
    (excl : List (String × List String)) (fuel : Nat)
    (items : List (String × PyVal)) :
    filterDefF resolve excl (fuel + 1) (.dict items) =
      match pyDelAll (keysFor resolve excl items) items with
      | .error e => .error e
      | .ok items' =>
        match mapPairsM (filterDefF resolve excl fuel) items' with
        | .error e => .error e
        | .ok items'' => .ok (.dict items'') := rfl

/-- Equation: redacting a list at positive fuel. -/
theorem filterDefF_list (resolve : PyVal → Option String)
    (excl : List (String × List String)) (fuel : Nat) (xs : List PyVal) :
    filterDefF resolve excl (fuel + 1) (.list xs) =
      match mapListM (filterDefF resolve excl fuel) xs with
      | .error e => .error e
      | .ok xs' => .ok (.list xs') := rfl

/-- Scalar test: the shapes `filter_definition` returns unchanged. -/
def pyScalar : PyVal → Bool
  | .list _ => false
  | .dict _ => false
  | _ => true

/-- Deleting an absent key is a `KeyError`. -/
theorem pyDel_of_not_contains (k : String) :
    ∀ items : List (String × PyVal),
      (items.map Prod.fst).contains k = false → pyDel k items = none
  | [], _ => rfl
  | kv :: rest, h => by
    simp only [List.map_cons, List.contains_cons, Bool.or_eq_false_iff,
      beq_eq_false_iff_ne, ne_eq] at h
    unfold pyDel
    rw [if_neg (fun hh => h.1 hh.symm),
      pyDel_of_not_contains k rest (by simpa using h.2)]
    rfl

/-- A successful elementwise redaction preserves the length. -/
theorem mapListM_length (f : PyVal → Except PyFail PyVal) :
    ∀ (xs ys : List PyVal), mapListM f xs = .ok ys → ys.length = xs.length
  | [], ys, h => by
    simp only [mapListM] at h
    obtain rfl := (Except.ok.injEq ..).mp h.symm
    rfl
  | x :: xs, ys, h => by
    unfold mapListM at h
    cases hx : f x with
    | error e => rw [hx] at h; exact absurd h (by simp)
    | ok x' =>
      rw [hx] at h
      cases hxs : mapListM f xs with
      | error e => rw [hxs] at h; exact absurd h (by simp)
      | ok xs' =>
        rw [hxs] at h
        obtain rfl := (Except.ok.injEq ..).mp h.symm
        simp [mapListM_length f xs xs' hxs]

/-- Redacting a dict of scalar values with no keys to remove succeeds and
changes nothing. -/
theorem mapPairsM_scalars (resolve : PyVal → Option String)
    (excl : List (String × List String)) (fuel : Nat) :
    ∀ items : List (String × PyVal), (∀ kv ∈ items, pyScalar kv.2 = true) →
      mapPairsM (filterDefF resolve excl (fuel + 1)) items = .ok items
  | [], _ => rfl
  | kv :: rest, h => by
    have hkv : pyScalar kv.2 = true := h kv (List.mem_cons_self kv rest)
    have hrest := mapPairsM_scalars resolve excl fuel rest
      (fun kv' hkv' => h kv' (List.mem_cons_of_mem kv hkv'))
    unfold mapPairsM
    have hone : filterDefF resolve excl (fuel + 1) kv.2 = .ok kv.2 := by
      cases hv : kv.2 <;> simp [hv, pyScalar] at hkv ⊢ <;> rfl
    rw [hone, hrest]

/-- C7, counterexample: redaction of a keyed object whose resolved schema
lists an absent field raises `KeyError` — `del doc[key]` at line 276 is
not guarded by presence — refuting "never failing when a listed field is
absent". -/
theorem C7_counterexample :
    filter_definition (fun _ => some "schemaX") [("schemaX", ["id"])]
      (.dict [("test", .str "1")]) = .error .keyError := by rfl

/-- C7 (amended): redaction resolves a keyed object's schema, deletes each
listed field — raising `KeyError` as soon as a listed field is absent
(rather than skipping it) — and otherwise recursively redacts the
remaining values; when no schema resolves, no key is deleted (a flat
scalar dict passes through unchanged); sequences are redacted elementwise
preserving order and length; scalars are returned unchanged; the spec's
nested example redacts both levels as stated. -/
theorem C7_amended_spec :
    (∀ resolve excl s, filter_definition resolve excl (.str s) = .ok (.str s)) ∧
    (∀ resolve excl n, filter_definition resolve excl (.num n) = .ok (.num n)) ∧
    (∀ resolve excl b, filter_definition resolve excl (.bool b) = .ok (.bool b)) ∧
    (∀ resolve excl, filter_definition resolve excl .null = .ok .null) ∧
    (∀ resolve excl xs ys,
       filter_definition resolve excl (.list xs) = .ok (.list ys) →
       ys.length = xs.length) ∧
    (∀ resolve excl items, resolve (.dict items) = none →
       (∀ kv ∈ items, pyScalar kv.2 = true) →
       filter_definition resolve excl (.dict items) = .ok (.dict items)) ∧
    (∀ resolve excl items d ks,
       resolve (.dict items) = some d →
       assocLookup excl d = some ks →
       ks ≠ [] →
       (∀ k ∈ ks, (items.map Prod.fst).contains k = false) →
       filter_definition resolve excl (.dict items) = .error .keyError) ∧
    filter_definition
      (fun v =>
        match v with
        | .dict items =>
          if (items.map Prod.fst).contains "sub" then some "schemaX"
          else some "schemaSub"
        | _ => none)
      [("schemaX", ["id"]), ("schemaSub", ["id"])]
      (.list [.dict [("id", .str "123"), ("test", .str "456"),
                     ("sub", .dict [("id", .str "789"), ("test", .str "147")])]]) =
      .ok (.list [.dict [("test", .str "456"),
                         ("sub", .dict [("test", .str "147")])]]) := by
  refine ⟨fun _ _ _ => rfl, fun _ _ _ => rfl, fun _ _ _ => rfl, fun _ _ => rfl,
    ?_, ?_, ?_, by rfl⟩
  · intro resolve excl xs ys h
    have h' : (match mapListM (filterDefF resolve excl 999) xs with
        | .error e => (.error e : Except PyFail PyVal)
        | .ok xs' => .ok (.list xs')) = .ok (.list ys) := h
    cases hm : mapListM (filterDefF resolve excl 999) xs with
    | error e => rw [hm] at h'; exact absurd h' (by simp)
    | ok xs' =>
      rw [hm] at h'
      simp only [Except.ok.injEq, PyVal.list.injEq] at h'
      subst h'
      exact mapListM_length _ xs _ hm
  · intro resolve excl items hres hscal
    have h1 : keysFor resolve excl items = [] := by
      simp [keysFor, hres]
    have h2 : mapPairsM (filterDefF resolve excl (998 + 1)) items = .ok items :=
      mapPairsM_scalars resolve excl 998 items hscal
    show filterDefF resolve excl (999 + 1) (.dict items) = .ok (.dict items)
    rw [filterDefF_dict, h1, pyDelAll_nil]
    show (match mapPairsM (filterDefF resolve excl 999) items with
      | .error e => (.error e : Except PyFail PyVal)
      | .ok items'' => .ok (.dict items'')) = .ok (.dict items)
    rw [show (999 : Nat) = 998 + 1 from rfl, h2]
  · intro resolve excl items d ks hres hks hne habs
    obtain ⟨k, ks', rfl⟩ := List.exists_cons_of_ne_nil hne
    have h1 : keysFor resolve excl items = k :: ks' := by
      simp [keysFor, hres, hks]
    have h2 : pyDel k items = none :=
      pyDel_of_not_contains k items (habs k (List.mem_cons_self k ks'))
    show filterDefF resolve excl (999 + 1) (.dict items) = .error .keyError
    rw [filterDefF_dict, h1, pyDelAll_cons, h2]

/-- C7, witness: a resolved schema listing a field the object does not
carry makes the redaction fail with `KeyError`. -/
theorem C7_witness :
    filter_definition (fun _ => some "schemaY") [("schemaY", ["secret"])]
      (.dict [("a", .str "x")]) = .error .keyError :=
  C7_amended_spec.2.2.2.2.2.2.1
    (fun _ => some "schemaY") [("schemaY", ["secret"])]
    [("a", .str "x")] "schemaY" ["secret"] rfl rfl
    (by decide) (by decide)


/-! ## Claim C8 -/

/-- String append acts as list append on the character data. -/
theorem strData_append (a b : String) : (a ++ b).data = a.data ++ b.data := rfl

/-- Strings with the same character data are equal. -/
theorem strMk_eq (l : List Char) (s : String) (h : l = s.data) :
    String.mk l = s := h ▸ rfl

/-- Equation: `replaceAllF` at positive fuel on a cons. -/
theorem replaceAllF_cons (pat rep : List Char) (fuel : Nat) (c : Char)
    (rest : List Char) :
    replaceAllF pat rep (fuel + 1) (c :: rest) =
      if pat ≠ [] ∧ pat.isPrefixOf (c :: rest) then
        rep ++ replaceAllF pat rep fuel (rest.drop (pat.length - 1))
      else
        c :: replaceAllF pat rep fuel rest := rfl

/-- The scan fuel of `replaceAllF` is irrelevant once it covers the input
length. -/
theorem replaceAllF_fuel (pat rep : List Char) :
    ∀ (fuel₁ : Nat) (l : List Char) (fuel₂ : Nat), l.length ≤ fuel₁ →
      l.length ≤ fuel₂ →
      replaceAllF pat rep fuel₁ l = replaceAllF pat rep fuel₂ l := by
  intro fuel₁
  induction fuel₁ with
  | zero =>
    intro l fuel₂ h₁ _
    have : l = [] := List.eq_nil_of_length_eq_zero (Nat.le_zero.mp h₁)
    subst this
    cases fuel₂ <;> rfl
  | succ fuel₁ ih =>
    intro l fuel₂ h₁ h₂
    cases l with
    | nil => cases fuel₂ <;> rfl
    | cons c rest =>
      cases fuel₂ with
      | zero => exact absurd h₂ (by simp)
      | succ fuel₂ =>
        rw [replaceAllF_cons, replaceAllF_cons]
        have hd : (rest.drop (pat.length - 1)).length ≤ rest.length := by
          rw [List.length_drop]; omega
        have h₁' : rest.length ≤ fuel₁ := by
          simp only [List.length_cons] at h₁; omega
        have h₂' : rest.length ≤ fuel₂ := by
          simp only [List.length_cons] at h₂; omega
        by_cases hcond : pat ≠ [] ∧ pat.isPrefixOf (c :: rest)
        · rw [if_pos hcond, if_pos hcond,
            ih (rest.drop (pat.length - 1)) fuel₂
              (le_trans hd h₁') (le_trans hd h₂')]
        · rw [if_neg hcond, if_neg hcond, ih rest fuel₂ h₁' h₂']

/-- A pattern whose first character does not occur in the scanned list is
not replaced. -/
theorem replaceAll_not_mem (c₀ : Char) (p' rep : List Char) :
    ∀ l : List Char, c₀ ∉ l → replaceAll (c₀ :: p') rep l = l
  | [], _ => rfl
  | c :: rest, h => by
    have hc : c ≠ c₀ := fun hh => h (hh ▸ List.mem_cons_self c rest)
    have hrest : c₀ ∉ rest := fun hh => h (List.mem_cons_of_mem c hh)
    show replaceAllF (c₀ :: p') rep (rest.length + 1) (c :: rest) = c :: rest
    rw [replaceAllF_cons,
      if_neg (by simp [List.isPrefixOf]; intro hh; exact absurd hh.symm hc)]
    exact congrArg (c :: ·) (replaceAll_not_mem c₀ p' rep rest hrest)

/-- Replacement skips over a prefix free of the pattern's first
character. -/
theorem replaceAll_append_left (c₀ : Char) (p' rep : List Char) :
    ∀ a t : List Char, c₀ ∉ a →
      replaceAll (c₀ :: p') rep (a ++ t) = a ++ replaceAll (c₀ :: p') rep t
  | [], t, _ => rfl
  | c :: a', t, h => by
    have hc : c ≠ c₀ := fun hh => h (hh ▸ List.mem_cons_self c a')
    have ha' : c₀ ∉ a' := fun hh => h (List.mem_cons_of_mem c hh)
    show replaceAllF (c₀ :: p') rep ((a' ++ t).length + 1) (c :: (a' ++ t)) = _
    rw [replaceAllF_cons,
      if_neg (by simp [List.isPrefixOf]; intro hh; exact absurd hh.symm hc)]
    exact congrArg (c :: ·) (replaceAll_append_left c₀ p' rep a' t ha')

/-- A list is a prefix of itself extended by anything. -/
theorem isPrefixOf_append_self : ∀ p t : List Char, p.isPrefixOf (p ++ t) = true
  | [], _ => by simp [List.isPrefixOf]
  | c :: p', t => by simp [List.isPrefixOf, isPrefixOf_append_self p' t]

/-- Replacement fires on an occurrence of the pattern at the head and
does not rescan the inserted replacement. -/
theorem replaceAll_head (c₀ : Char) (p' rep t : List Char) :
    replaceAll (c₀ :: p') rep ((c₀ :: p') ++ t) =
      rep ++ replaceAll (c₀ :: p') rep t := by
  show replaceAllF (c₀ :: p') rep ((p' ++ t).length + 1) (c₀ :: (p' ++ t)) = _
  rw [replaceAllF_cons,
    if_pos ⟨by simp, isPrefixOf_append_self (c₀ :: p') t⟩]
  congr 1
  have hdrop : (p' ++ t).drop ((c₀ :: p').length - 1) = t := by
    simp
  rw [hdrop]
  exact replaceAllF_fuel (c₀ :: p') rep (p' ++ t).length t t.length
    (by simp) le_rfl

/-- Equation: the braced-group scan at positive fuel on a cons. -/
theorem reFindallF_cons (fuel : Nat) (c : Char) (rest : List Char) :
    reFindallF (fuel + 1) (c :: rest) =
      if c = openBr then
        match lastIdxOf closeBr (rest.takeWhile fun d => d ≠ '\n') with
        | some j =>
          if 1 ≤ j then
            (rest.takeWhile fun d => d ≠ '\n').take j ::
              reFindallF fuel (rest.drop (j + 1))
          else reFindallF fuel rest
        | none => reFindallF fuel rest
      else reFindallF fuel rest := rfl

/-- A list without `{` yields no groups, at any fuel. -/
theorem reFindallF_no_open :
    ∀ (fuel : Nat) (l : List Char), openBr ∉ l → reFindallF fuel l = []
  | 0, _, _ => rfl
  | fuel + 1, [], _ => rfl
  | fuel + 1, c :: rest, h => by
    have hc : c ≠ openBr := fun hh => h (hh ▸ List.mem_cons_self c rest)
    have hrest : openBr ∉ rest := fun hh => h (List.mem_cons_of_mem c hh)
    rw [reFindallF_cons, if_neg hc]
    exact reFindallF_no_open fuel rest hrest

/-- The scan skips over a prefix free of `{`. -/
theorem reFindall_append_no_open :
    ∀ a t : List Char, openBr ∉ a →
      reFindallBraced (a ++ t) = reFindallBraced t
  | [], _, _ => rfl
  | c :: a', t, h => by
    have hc : c ≠ openBr := fun hh => h (hh ▸ List.mem_cons_self c a')
    have ha' : openBr ∉ a' := fun hh => h (List.mem_cons_of_mem c hh)
    show reFindallF ((a' ++ t).length + 1) (c :: (a' ++ t)) = _
    rw [reFindallF_cons, if_neg hc]
    exact reFindall_append_no_open a' t ha'

/-- Equation: `lastIdxOf` on a cons. -/
theorem lastIdxOf_cons (c a : Char) (rest : List Char) :
    lastIdxOf c (a :: rest) =
      match lastIdxOf c rest with
      | some j => some (j + 1)
      | none => if a = c then some 0 else none := rfl

/-- `lastIdxOf` misses on a list not containing the character. -/
theorem lastIdxOf_not_mem (c : Char) :
    ∀ l : List Char, c ∉ l → lastIdxOf c l = none
  | [], _ => rfl
  | a :: rest, h => by
    have ha : a ≠ c := fun hh => h (hh ▸ List.mem_cons_self a rest)
    have hrest : c ∉ rest := fun hh => h (List.mem_cons_of_mem a hh)
    unfold lastIdxOf
    rw [lastIdxOf_not_mem c rest hrest]
    simp [ha]

/-- `lastIdxOf` finds the single occurrence. -/
theorem lastIdxOf_single (c : Char) :
    ∀ a b : List Char, c ∉ a → c ∉ b →
      lastIdxOf c (a ++ c :: b) = some a.length
  | [], b, _, hb => by
    show lastIdxOf c (c :: b) = some 0
    rw [lastIdxOf_cons, lastIdxOf_not_mem c b hb]
    simp
  | x :: a', b, ha, hb => by
    have ha' : c ∉ a' := fun hh => ha (List.mem_cons_of_mem x hh)
    show lastIdxOf c (x :: (a' ++ c :: b)) = some (a'.length + 1)
    rw [lastIdxOf_cons, lastIdxOf_single c a' b ha' hb]

/-- `takeWhile` keeps a list every element of which satisfies the
predicate. -/
theorem takeWhile_all (p : Char → Bool) :
    ∀ l : List Char, (∀ x ∈ l, p x = true) → l.takeWhile p = l
  | [], _ => rfl
  | c :: rest, h => by
    rw [List.takeWhile_cons, if_pos (h c (List.mem_cons_self c rest))]
    exact congrArg (c :: ·) (takeWhile_all p rest
      (fun x hx => h x (List.mem_cons_of_mem c hx)))

/-- A string that contains no brace and no newline, so that it can take
part in a placeholder-free region of a dispatch URL. -/
def cleanStr (s : String) : Prop :=
  openBr ∉ s.toList ∧ closeBr ∉ s.toList ∧ '\n' ∉ s.toList

instance cleanStr_decidable (s : String) : Decidable (cleanStr s) :=
  inferInstanceAs (Decidable (_ ∧ _ ∧ _))

/-- The greedy scan of a URL with exactly one braced group returns
exactly that group. -/
theorem reFindall_single (A N B : List Char)
    (hA : openBr ∉ A) (hN1 : closeBr ∉ N) (hN2 : '\n' ∉ N) (hN : N ≠ [])
    (hB1 : openBr ∉ B) (hB2 : closeBr ∉ B) (hB3 : '\n' ∉ B) :
    reFindallBraced (A ++ openBr :: (N ++ closeBr :: B)) = [N] := by
  rw [reFindall_append_no_open A _ hA]
  show reFindallF ((N ++ closeBr :: B).length + 1)
    (openBr :: (N ++ closeBr :: B)) = [N]
  rw [reFindallF_cons, if_pos rfl]
  have hwin : (N ++ closeBr :: B).takeWhile (fun d => d ≠ '\n') =
      N ++ closeBr :: B := by
    apply takeWhile_all
    intro x hx
    rcases List.mem_append.mp hx with hx | hx
    · simp only [decide_eq_true_eq]
      exact fun hh => hN2 (hh ▸ hx)
    · rcases List.mem_cons.mp hx with rfl | hx
      · simp [closeBr]
      · simp only [decide_eq_true_eq]
        exact fun hh => hB3 (hh ▸ hx)
  have hlen : 1 ≤ N.length := by
    cases N with
    | nil => exact absurd rfl hN
    | cons _ _ => simp
  have htake : (N ++ closeBr :: B).take N.length = N := List.take_left N (closeBr :: B)
  have hdrop : (N ++ closeBr :: B).drop (N.length + 1) = B := by
    have hsp : N ++ closeBr :: B = (N ++ [closeBr]) ++ B := by simp
    rw [hsp, show N.length + 1 = (N ++ [closeBr]).length by simp]
    exact List.drop_left (N ++ [closeBr]) B
  rw [hwin, lastIdxOf_single closeBr N B hN1 hB2]
  show (if 1 ≤ N.length then
      (N ++ closeBr :: B).take N.length ::
        reFindallF (N ++ closeBr :: B).length
          ((N ++ closeBr :: B).drop (N.length + 1))
    else reFindallF (N ++ closeBr :: B).length (N ++ closeBr :: B)) = [N]
  rw [if_pos hlen, htake, hdrop, reFindallF_no_open _ B hB1]

/-- C8, counterexample: a template with two placeholders is dispatched
with neither substituted — the greedy `{(.+)}` matches the whole
`{x}/b/{y}` span, whose group `x}/b/{y` matches no parameter name — so
the claim's multi-placeholder substitution does not happen. -/
theorem C8_counterexample :
    dispatch_url "http://u" "/a/\x7bx\x7d/b/\x7by\x7d" "q=1"
        [("x", "1"), ("y", "2")] =
      "http://u/a/\x7bx\x7d/b/\x7by\x7d?q=1" ∧
    "http://u/a/\x7bx\x7d/b/\x7by\x7d?q=1" ≠ "http://u/a/1/b/2?q=1" :=
  ⟨rfl, by decide⟩

/-- C8 (amended): the target URL is built as
`{upstreamBaseURL}{pathTemplate}?{queryString}`; the placeholder scan uses
the greedy pattern `\x7b(.+)\x7d` over the whole URL, so substitution
happens only when a greedy group coincides with a supplied parameter
name: for a template containing exactly one `{name}` placeholder (and no
other brace or newline anywhere in the URL parts), the supplied value is
substituted for the brace-delimited token; templates with two or more
placeholders produce a single non-matching group and are left
unsubstituted. -/
theorem C8_amended_spec (uri pre name post qs v : String)
    (h1 : cleanStr uri) (h2 : cleanStr pre) (h3 : cleanStr name)
    (h4 : cleanStr post) (h5 : cleanStr qs) (h6 : name ≠ "") :
    dispatch_url uri (pre ++ "\x7b" ++ name ++ "\x7d" ++ post) qs
        [(name, v)] =
      uri ++ pre ++ v ++ post ++ "?" ++ qs := by
  have hN : name.toList ≠ [] := by
    intro hh
    apply h6
    have := congrArg String.mk hh
    rwa [strMk_toList] at this
  have hdata : (uri ++ (pre ++ "\x7b" ++ name ++ "\x7d" ++ post) ++ "?" ++ qs).toList =
      (uri.toList ++ pre.toList) ++ openBr ::
        (name.toList ++ closeBr :: (post.toList ++ '?' :: qs.toList)) := by
    show uri.data ++ (pre.data ++ "\x7b".data ++ name.data ++ "\x7d".data ++
        post.data) ++ "?".data ++ qs.data = _
    simp [openBr, closeBr]
  have hfind : reFindallBraced
      ((uri ++ (pre ++ "\x7b" ++ name ++ "\x7d" ++ post) ++ "?" ++ qs).toList) =
      [name.toList] := by
    rw [hdata]
    apply reFindall_single
    · intro hh
      rcases List.mem_append.mp hh with hh | hh
      · exact h1.1 hh
      · exact h2.1 hh
    · exact h3.2.1
    · exact h3.2.2
    · exact hN
    · intro hh
      rcases List.mem_append.mp hh with hh | hh
      · exact h4.1 hh
      · rcases List.mem_cons.mp hh with hh | hh
        · exact absurd hh (by decide)
        · exact h5.1 hh
    · intro hh
      rcases List.mem_append.mp hh with hh | hh
      · exact h4.2.1 hh
      · rcases List.mem_cons.mp hh with hh | hh
        · exact absurd hh (by decide)
        · exact h5.2.1 hh
    · intro hh
      rcases List.mem_append.mp hh with hh | hh
      · exact h4.2.2 hh
      · rcases List.mem_cons.mp hh with hh | hh
        · exact absurd hh (by decide)
        · exact h5.2.2 hh
  show (reFindallBraced
      ((uri ++ (pre ++ "\x7b" ++ name ++ "\x7d" ++ post) ++ "?" ++ qs).toList)).foldl
      _ _ = _
  rw [hfind, List.foldl_cons, List.foldl_nil, List.foldl_cons, List.foldl_nil,
    if_pos rfl]
  show strReplace (uri ++ (pre ++ "\x7b" ++ name ++ "\x7d" ++ post) ++ "?" ++ qs)
      (String.mk (openBr :: (name.toList ++ [closeBr]))) v = _
  unfold strReplace
  rw [if_neg (by simp)]
  have hpatData : (String.mk (openBr :: (name.toList ++ [closeBr]))).toList =
      openBr :: (name.toList ++ [closeBr]) := rfl
  rw [hpatData, hdata]
  have hsplit : (uri.toList ++ pre.toList) ++ openBr ::
      (name.toList ++ closeBr :: (post.toList ++ '?' :: qs.toList)) =
      (uri.toList ++ pre.toList) ++
        ((openBr :: (name.toList ++ [closeBr])) ++
          (post.toList ++ '?' :: qs.toList)) := by
    simp
  rw [hsplit]
  rw [replaceAll_append_left openBr (name.toList ++ [closeBr]) v.toList
    (uri.toList ++ pre.toList) _
    (fun hh => by
      rcases List.mem_append.mp hh with hh | hh
      · exact h1.1 hh
      · exact h2.1 hh)]
  rw [replaceAll_head openBr (name.toList ++ [closeBr]) v.toList
    (post.toList ++ '?' :: qs.toList)]
  rw [replaceAll_not_mem openBr (name.toList ++ [closeBr]) v.toList
    (post.toList ++ '?' :: qs.toList)
    (fun hh => by
      rcases List.mem_append.mp hh with hh | hh
      · exact h4.1 hh
      · rcases List.mem_cons.mp hh with hh | hh
        · exact absurd hh (by decide)
        · exact h5.1 hh)]
  apply strMk_eq
  show (uri.data ++ pre.data) ++ (v.data ++ (post.data ++ '?' :: qs.data)) =
    (uri ++ pre ++ v ++ post ++ "?" ++ qs).data
  show _ = uri.data ++ pre.data ++ v.data ++ post.data ++ "?".data ++ qs.data
  simp

/-- C8, witness: a single-placeholder template is substituted with the
supplied path parameter. -/
theorem C8_witness :
    dispatch_url "http://u" "/pets/\x7bid\x7d/x" "a=b" [("id", "42")] =
      "http://u/pets/42/x?a=b" := by
  have h := C8_amended_spec "http://u" "/pets/" "id" "/x" "a=b" "42"
    (by decide) (by decide) (by decide) (by decide) (by decide) (by decide)
  exact h


/-! ## Claim C9 -/

/-- Equation: `assocSet` on a cons. -/
theorem assocSet_cons {α : Type} (k1 : String) (v1 : α)
    (rest : List (String × α)) (k : String) (v : α) :
    assocSet ((k1, v1) :: rest) k v =
      if k1 = k then (k, v) :: rest
      else (k1, v1) :: assocSet rest k v := rfl

/-- Equation: `assocErase` on a cons. -/
theorem assocErase_cons {α : Type} (k1 : String) (v1 : α)
    (rest : List (String × α)) (k : String) :
    assocErase ((k1, v1) :: rest) k =
      if k1 = k then rest else (k1, v1) :: assocErase rest k := rfl

/-- Assigning an absent key appends the new entry at the end. -/
theorem assocSet_append {α : Type} (k : String) (v : α) :
    ∀ l : List (String × α), (l.map Prod.fst).contains k = false →
      assocSet l k v = l ++ [(k, v)]
  | [], _ => rfl
  | (k1, v1) :: rest, h => by
    simp only [List.map_cons, List.contains_cons, Bool.or_eq_false_iff,
      beq_eq_false_iff_ne, ne_eq] at h
    rw [assocSet_cons, if_neg (fun hh => h.1 hh.symm),
      assocSet_append k v rest h.2]
    rfl

/-- Deleting a key present in the first part of a concatenation leaves
the second part alone. -/
theorem assocErase_append_left {α : Type} (k : String) :
    ∀ l m : List (String × α), (l.map Prod.fst).contains k = true →
      assocErase (l ++ m) k = assocErase l k ++ m
  | [], m, h => by simp at h
  | (k1, v1) :: rest, m, h => by
    by_cases hk : k1 = k
    · show assocErase ((k1, v1) :: (rest ++ m)) k = _
      rw [assocErase_cons, assocErase_cons, if_pos hk, if_pos hk]
    · simp only [List.map_cons, List.contains_cons, Bool.or_eq_true,
        beq_iff_eq] at h
      rcases h with h | h
      · exact absurd h.symm hk
      · show assocErase ((k1, v1) :: (rest ++ m)) k = _
        rw [assocErase_cons, assocErase_cons, if_neg hk, if_neg hk,
          assocErase_append_left k rest m h]
        rfl

/-- C9, counterexample: a header with an empty value is not forwarded
even on an ordinary (non-multipart) request — the `if v` comprehension of
line 316 drops it — so not all inbound headers are copied unchanged. -/
theorem C9_counterexample :
    forward_headers [("X-Empty", ""), ("A", "1")] = [("A", "1")] ∧
    ([("A", "1")] : List (String × String)) ≠ [("X-Empty", ""), ("A", "1")] :=
  ⟨rfl, by decide⟩

/-- C9 (amended): the inbound headers are first filtered to those with a
non-empty value; a non-multipart request forwards exactly that filtered
list unchanged; a multipart request (Content-Type starting with
`multipart/form-data`, looked up case-insensitively in the raw inbound
headers) additionally renames a surviving `Content-Length` entry to
`X-Content-Length` — the value preserved, the new entry appended at the
end, the original entry removed — and forwards everything else as-is. -/
theorem C9_amended_spec (inbound : List (String × String)) :
    (strStartsWith (ciGet inbound "Content-Type") "multipart/form-data" =
        false →
      forward_headers inbound = truthyHeaders inbound) ∧
    (strStartsWith (ciGet inbound "Content-Type") "multipart/form-data" =
        true →
      ((truthyHeaders inbound).map Prod.fst).contains "Content-Length" =
        false →
      forward_headers inbound = truthyHeaders inbound) ∧
    (strStartsWith (ciGet inbound "Content-Type") "multipart/form-data" =
        true →
      ((truthyHeaders inbound).map Prod.fst).contains "Content-Length" =
        true →
      ((truthyHeaders inbound).map Prod.fst).contains "X-Content-Length" =
        false →
      forward_headers inbound =
        assocErase (truthyHeaders inbound) "Content-Length" ++
          [("X-Content-Length",
            (assocLookup (truthyHeaders inbound) "Content-Length").getD "")]) := by
  refine ⟨?_, ?_, ?_⟩
  · intro hmp
    simp only [forward_headers]
    rw [if_pos (by simp [hmp])]
  · intro hmp hcl
    simp only [forward_headers]
    rw [if_neg (by simp [hmp]), if_neg (by rw [hcl]; simp)]
  · intro hmp hcl hxcl
    simp only [forward_headers]
    rw [if_neg (by simp [hmp]), if_pos hcl, assocSet_append _ _ _ hxcl,
      assocErase_append_left _ _ _ hcl]

/-- C9, witness: a multipart request has `Content-Length: 10` forwarded
as `X-Content-Length: 10`, the other headers passing through untouched. -/
theorem C9_witness :
    forward_headers [("Content-Type", "multipart/form-data; boundary=x"),
                     ("Content-Length", "10"), ("Host", "h")] =
      [("Content-Type", "multipart/form-data; boundary=x"), ("Host", "h"),
       ("X-Content-Length", "10")] := by
  have h := (C9_amended_spec
      [("Content-Type", "multipart/form-data; boundary=x"),
       ("Content-Length", "10"), ("Host", "h")]).2.2 rfl rfl rfl
  exact h.trans (by rfl)

/-! ## Claim C10 -/

/-- C10, counterexample: the `'properties'` access is not merely a
guarded membership test — line 252 subscripts
`definition_spec['properties']` unconditionally, so a definition named by
`exclude_fields` that carries a `required` key but no `properties` key
also fails the pass with `KeyError`, refuting the claimed contrast
between the two accesses. -/
theorem C10_counterexample :
    remove_exclude_fields [("D", ["id"])]
        [("D", .dict [("required", .list [])])] = .error .keyError := by rfl

/-- C10 (amended): the merge-time field-exclusion step subscripts both
`definition_spec['required']` (line 250) and
`definition_spec['properties']` (line 252) unconditionally, so for a
definition named in `exclude_fields` with at least one listed key the
step is total only when both keys are present: a missing `required` key
fails with a key-lookup error instead of skipping the rule, and a present
`required` list with a missing `properties` key fails likewise; only the
field-level membership tests and the removal/delete themselves are
guarded — a listed key absent from a present `required` list and a
present `properties` dict is skipped without failing. -/
theorem C10_amended_spec :
    (∀ (excl : List (String × List String)) name
       (items : List (String × PyVal)) rest keys k ks,
       assocLookup excl name = some keys → keys = k :: ks →
       assocLookup items "required" = none →
       remove_exclude_fields excl ((name, .dict items) :: rest) =
         .error .keyError) ∧
    (∀ (excl : List (String × List String)) name
       (items : List (String × PyVal)) rest keys k ks reqs,
       assocLookup excl name = some keys → keys = k :: ks →
       assocLookup items "required" = some (.list reqs) →
       pyListContainsStr reqs k = false →
       assocLookup items "properties" = none →
       remove_exclude_fields excl ((name, .dict items) :: rest) =
         .error .keyError) ∧
    (∀ (items : List (String × PyVal)) key reqs pits,
       assocLookup items "required" = some (.list reqs) →
       assocLookup items "properties" = some (.dict pits) →
       pyListContainsStr reqs key = false →
       (pits.map Prod.fst).contains key = false →
       exclFieldKey items key = .ok items) := by
  refine ⟨?_, ?_, ?_⟩
  · intro excl name items rest keys k ks hlook hk hreq
    subst hk
    simp only [remove_exclude_fields, hlook, exclFieldKeys, exclFieldKey, hreq]
  · intro excl name items rest keys k ks reqs hlook hk hreq hmem hprop
    subst hk
    simp only [remove_exclude_fields, hlook, exclFieldKeys, exclFieldKey,
      hreq, hmem, Bool.false_eq_true, if_false, hprop]
  · intro items key reqs pits hreq hprop hmem hcont
    simp only [exclFieldKey, hreq, hmem, Bool.false_eq_true, if_false, hprop,
      hcont]

/-- C10, witness: a matching definition with `properties` but no
`required` key fails the exclusion pass with `KeyError`. -/
theorem C10_witness :
    remove_exclude_fields [("D", ["id"])]
        [("D", .dict [("properties", .dict [])])] = .error .keyError :=
  C10_amended_spec.1 [("D", ["id"])] "D"
    [("properties", .dict [])] [] ["id"] "id" [] rfl rfl rfl

end SwaggerAggregator
